import Mathlib

/-!
Verification of the ranking core of the publication-ranking service
(`app/main.py`): the record normalizer, the citation-rate ranker, the
coauthor resolver and ranker, and the paginated fetcher's safety cap.

Strings are embedded as lists of characters (`Str`); Python's float
division in the citation-rate formula is embedded exactly over `ℚ`;
Python's stable `list.sort(key, reverse=True)` is embedded as the stable
`List.mergeSort` with the corresponding total boolean preorder.
Dictionaries and `Counter`s are embedded as insertion-ordered association
lists, matching CPython's insertion-order iteration semantics.
-/

abbrev Str : Type := List Char

/-- Characters matched by Python's regex class `\s` on ASCII input. -/
def pyIsSpace (c : Char) : Bool :=
  c = ' ' || c = '\t' || c = '\n' || c = '\r' || c = '\x0b' || c = '\x0c'

/-- Embeds Python `str.strip()`: drop leading and trailing whitespace. -/
def pyStrip (s : Str) : Str :=
  ((s.dropWhile pyIsSpace).reverse.dropWhile pyIsSpace).reverse

/-- Embeds Python `str.lower()` (ASCII range, as used on name/type tags). -/
def pyLower (s : Str) : Str :=
  s.map Char.toLower

/-- Embeds `re.sub(r"\s+", " ", s)`: each maximal whitespace run becomes one space. -/
def collapseWS : Str → Str
  | [] => []
  | [c] => if pyIsSpace c then [' '] else [c]
  | c :: d :: rest =>
    if pyIsSpace c && pyIsSpace d then collapseWS (d :: rest)
    else (if pyIsSpace c then ' ' else c) :: collapseWS (d :: rest)

/-- Embeds `normalize_person_name` from `app/main.py`:
empty input yields empty; otherwise strip, lower-case, collapse whitespace. -/
def normalize_person_name (name : Str) : Str :=
  if name = [] then [] else collapseWS (pyLower (pyStrip name))

/-- The fallback display name used for authorships with a missing name. -/
def unknownName : Str := "Unknown".data

/-- Embeds one entry of a raw work's `authorships` list: the nested
`a.get("author") or {}` dictionary is flattened to its two used fields. -/
structure Authorship where
  id : Option Str
  display_name : Option Str
deriving DecidableEq

/-- Embeds a raw OpenAlex work record, restricted to the fields the ranking
pipeline reads (`title`, `publication_year`, `cited_by_count`, `type`,
`authorships`). Citation counts are natural numbers per the data model. -/
structure RawWork where
  title : Option Str
  publication_year : Option Int
  cited_by_count : Option Nat
  type : Option Str
  authorships : List Authorship
deriving DecidableEq

/-- Constant `MAX_AUTHORS_DISPLAY` from `app/main.py`. -/
def MAX_AUTHORS_DISPLAY : Nat := 12

/-- Constant `TOP_PAPERS` from `app/main.py`. -/
def TOP_PAPERS : Nat := 30

/-- Constant `TOP_COAUTHORS` from `app/main.py`. -/
def TOP_COAUTHORS : Nat := 30

/-- The list `names` built inside `extract_authors_list`: display names of
the authorships, keeping only truthy (present and non-empty) values. -/
def resolvedNames (w : RawWork) : List Str :=
  w.authorships.filterMap (fun a =>
    match a.display_name with
    | none => none
    | some d => if d = [] then none else some d)

/-- Embeds `extract_authors_list` from `app/main.py`. -/
def extract_authors_list (w : RawWork) (max_authors : Nat) : Str :=
  let names := resolvedNames w
  if names = [] then []
  else if names.length ≤ max_authors then List.intercalate ", ".data names
  else List.intercalate ", ".data (names.take max_authors) ++ ", et al.".data

/-- Embeds the dictionary produced by `normalize_work`, restricted to the
fields read downstream (the DOI/venue/url fields are presentation-only). -/
structure NormWork where
  title : Option Str
  authors : Str
  year : Option Int
  citations : Nat
  type : Option Str
deriving DecidableEq

/-- Embeds `normalize_work` from `app/main.py` on the embedded fields;
`cited_by_count` defaults to 0 when absent (`int(w.get(...) or 0)`). -/
def normalize_work (w : RawWork) : NormWork :=
  { title := w.title
    authors := extract_authors_list w MAX_AUTHORS_DISPLAY
    year := w.publication_year
    citations := w.cited_by_count.getD 0
    type := w.type }

/-- Embeds `citation_rate` from `app/main.py` over exact rationals:
`age = max(0, now_year - year); citations / (1 + age)`. -/
def citation_rate (citations : Nat) (year now_year : Int) : ℚ :=
  let age : Int := max 0 (now_year - year)
  (citations : ℚ) / (1 + (age : ℚ))

/-- A normalized work together with its attached `citation_rate` score,
as built inside `compute_rate_ranking` (year known to be present). -/
structure RatedWork where
  title : Option Str
  authors : Str
  year : Int
  citations : Nat
  type : Option Str
  citation_rate : ℚ
deriving DecidableEq

/-! ### Boolean strict-order comparators

Python's tuple comparison under `reverse=True` is embedded through explicit
boolean lexicographic comparators, with the three properties (asymmetry,
transitivity, connexity-to-equality) needed for sorted-output reasoning. -/

/-- Strict comparator on characters (Python compares by code point). -/
def chLt (a b : Char) : Bool := decide (a < b)

/-- Lexicographic strict comparator on lists, Python string semantics:
a proper prefix is smaller, otherwise the first differing element decides. -/
def listLt (lt : α → α → Bool) : List α → List α → Bool
  | _, [] => false
  | [], _ :: _ => true
  | a :: as, b :: bs => if lt a b then true else if lt b a then false else listLt lt as bs

/-- Strict comparator on embedded Python strings. -/
def strLt : Str → Str → Bool := listLt chLt

/-- Strict comparator on rationals. -/
def qLt (a b : ℚ) : Bool := decide (a < b)

/-- Strict comparator on naturals. -/
def natLt (a b : Nat) : Bool := decide (a < b)

/-- Strict comparator on integers. -/
def intLt (a b : Int) : Bool := decide (a < b)

/-- Lexicographic combination of two strict comparators on a pair. -/
def lexCombine (ltA : α → α → Bool) (ltB : β → β → Bool) (x y : α × β) : Bool :=
  if ltA x.1 y.1 then true else if ltA y.1 x.1 then false else ltB x.2 y.2

/-- A boolean comparator that is a strict linear order: asymmetric,
transitive, and equal whenever neither side is below the other. -/
structure IsStrictLinear (lt : κ → κ → Bool) : Prop where
  asymm : ∀ x y, lt x y = true → lt y x = false
  trans : ∀ x y z, lt x y = true → lt y z = true → lt x z = true
  eq_of : ∀ x y, lt x y = false → lt y x = false → x = y

/-- Derives the `le` relation used to embed `list.sort(key, reverse=True)`:
`x` may precede `y` exactly when the key of `x` is not below the key of `y`. -/
def descLe (lt : κ → κ → Bool) (k : α → κ) (x y : α) : Bool :=
  ! lt (k x) (k y)

/-- Sort key of the paper ranking: `(citation_rate, citations, year, title or "")`,
as in the `rated.sort(key=..., reverse=True)` call of `compute_rate_ranking`. -/
def rateKey (r : RatedWork) : ℚ × (Nat × (Int × Str)) :=
  (r.citation_rate, r.citations, r.year, r.title.getD [])

/-- Ascending lexicographic strict comparison of paper sort keys. -/
def rateKeyLt : (ℚ × (Nat × (Int × Str))) → (ℚ × (Nat × (Int × Str))) → Bool :=
  lexCombine qLt (lexCombine natLt (lexCombine intLt strLt))

/-- The stable-sort relation embedding `reverse=True` on the paper sort key. -/
def rateLe (a b : RatedWork) : Bool := descLe rateKeyLt rateKey a b

/-- Embeds the loop body of `compute_rate_ranking`: works without an
integer year are skipped, the rest get an attached `citation_rate`. -/
def rateItem (now : Int) (w : NormWork) : Option RatedWork :=
  match w.year with
  | none => none
  | some y => some
    { title := w.title
      authors := w.authors
      year := y
      citations := w.citations
      type := w.type
      citation_rate := citation_rate w.citations y now }

/-- Embeds `compute_rate_ranking` from `app/main.py`. The reference year
`now` (obtained from `current_year()` in the source) is passed explicitly.
Works without an integer year are skipped; the rest get a `citation_rate`
and are stably sorted descending on `(rate, citations, year, title)`,
then truncated to `top_n`. -/
def compute_rate_ranking (works : List NormWork) (top_n : Nat) (now : Int) : List RatedWork :=
  let rated := works.filterMap (rateItem now)
  (List.mergeSort rated rateLe).take top_n

/-- Embeds `_canonical_author_id` from `app/main.py`: identifiers not
starting with "http" get the OpenAlex URL prefix. -/
def _canonical_author_id (openalex_author_id : Str) : Str :=
  if "http".data.isPrefixOf openalex_author_id then openalex_author_id
  else "https://openalex.org/".data ++ openalex_author_id

/-- Embeds `is_published_article` from `app/main.py`:
`(type or "").lower().strip() == "article"`. -/
def is_published_article (raw_work : RawWork) : Bool :=
  pyStrip (pyLower (raw_work.type.getD [])) = "article".data

/-- Insertion-ordered embedding of `Counter[k] += 1`: increment in place,
or append a fresh key with count 1. -/
def bumpCount [DecidableEq κ] (k : κ) : List (κ × Nat) → List (κ × Nat)
  | [] => [(k, 1)]
  | (k2, n) :: rest => if k2 = k then (k2, n + 1) :: rest else (k2, n) :: bumpCount k rest

/-- Insertion-ordered association-list lookup (`dict.get`). -/
def lookupA [DecidableEq κ] (k : κ) : List (κ × δ) → Option δ
  | [] => none
  | (k2, v) :: rest => if k2 = k then some v else lookupA k rest

/-- Embeds the `name_display` update: keep the longest observed variant,
first writer wins on equal length. -/
def setLongest (k d : Str) : List (Str × Str) → List (Str × Str)
  | [] => [(k, d)]
  | (k2, v) :: rest =>
    if k2 = k then (k2, if v.length < d.length then d else v) :: rest
    else (k2, v) :: setLongest k d rest

/-- Embeds `name_ids[key][aid] += 1` on the `defaultdict(Counter)`. -/
def bumpIds (k aid : Str) : List (Str × List (Str × Nat)) → List (Str × List (Str × Nat))
  | [] => [(k, [(aid, 1)])]
  | (k2, m) :: rest =>
    if k2 = k then (k2, bumpCount aid m) :: rest
    else (k2, m) :: bumpIds k aid rest

/-- The three accumulation tables of the coauthor scan
(`name_counts`, `name_display`, `name_ids`). -/
structure AggState where
  name_counts : List (Str × Nat)
  name_display : List (Str × Str)
  name_ids : List (Str × List (Str × Nat))
deriving DecidableEq

/-- Fresh accumulation scope built per ranking call. -/
def initAggState : AggState := ⟨[], [], []⟩

/-- Embeds `author.get("display_name") or "Unknown"`: a missing or empty
display name falls back to "Unknown". -/
def dispOf (a : Authorship) : Str :=
  match a.display_name with
  | none => unknownName
  | some d => if d = [] then unknownName else d

/-- Embeds the body of the authorship scan of
`compute_coauthor_ranking_articles_only_merge_by_name`: skip entries with
no identifier or the subject's identifier, derive the name key, skip empty
keys, and update the three tables. -/
def processEntry (main_id : Str) (st : AggState) (a : Authorship) : AggState :=
  match a.id with
  | none => st
  | some aid =>
    if aid = [] ∨ aid = main_id then st
    else
      let disp := dispOf a
      let key := normalize_person_name disp
      if key = [] then st
      else
        { name_counts := bumpCount key st.name_counts
          name_display := setLongest key disp st.name_display
          name_ids := bumpIds key aid st.name_ids }

/-- Embeds `Counter.most_common(1)[0][0]`: the first-seen key whose count
is maximal (later keys replace only on strictly greater count). -/
def mostCommonGo (a : Str) (n : Nat) : List (Str × Nat) → Str
  | [] => a
  | (b, m) :: rest => if n < m then mostCommonGo b m rest else mostCommonGo a n rest

/-- Majority identifier of a per-name-key counter, `none` when empty. -/
def mostCommon : List (Str × Nat) → Option Str
  | [] => none
  | (a, n) :: rest => some (mostCommonGo a n rest)

/-- One aggregate of the coauthor ranking, as built per name key. -/
structure CoauthorItem where
  name_key : Str
  name : Str
  count : Nat
  author_id : Option Str
  merged_ids : Nat
deriving DecidableEq

/-- Embeds the `items` construction loop over `name_counts.items()`. -/
def mkItems (st : AggState) : List CoauthorItem :=
  st.name_counts.map (fun kc =>
    let idsK := (lookupA kc.1 st.name_ids).getD []
    { name_key := kc.1
      name := (lookupA kc.1 st.name_display).getD unknownName
      count := kc.2
      author_id := mostCommon idsK
      merged_ids := idsK.length })

/-- Sort key of the coauthor ranking: `(count, name)` under `reverse=True`. -/
def coKey (i : CoauthorItem) : Nat × Str := (i.count, i.name)

/-- Ascending lexicographic strict comparison of coauthor sort keys. -/
def coKeyLt : (Nat × Str) → (Nat × Str) → Bool := lexCombine natLt strLt

/-- The stable-sort relation embedding `reverse=True` on the coauthor key. -/
def coLe (a b : CoauthorItem) : Bool := descLe coKeyLt coKey a b

/-- The unsorted `items` list of the coauthor ranking: canonicalize the
subject, keep only published articles, scan all authorships into the
tables, and build one aggregate per name key. -/
def coauthorItemsOf (raw_works : List RawWork) (main_author_id : Str) : List CoauthorItem :=
  let main_id := _canonical_author_id main_author_id
  let article_works := raw_works.filter is_published_article
  let st := article_works.foldl
    (fun s w => w.authorships.foldl (processEntry main_id) s) initAggState
  mkItems st

/-- Embeds `compute_coauthor_ranking_articles_only_merge_by_name` from
`app/main.py`: build the per-name-key aggregates over the qualifying
articles, stably sort descending on `(count, name)`, truncate to `top_n`,
and return the qualifying-article count alongside. -/
def compute_coauthor_ranking_articles_only_merge_by_name
    (raw_works : List RawWork) (main_author_id : Str) (top_n : Nat) :
    List CoauthorItem × Nat :=
  let items := coauthorItemsOf raw_works main_author_id
  ((List.mergeSort items coLe).take top_n, (raw_works.filter is_published_article).length)

/-- A cursor-indexed page source abstracting the OpenAlex `/works` endpoint:
for a cursor it yields the page's records and the next cursor (`none`
embeds a falsy `next_cursor`). Only successful (HTTP 200) responses are
modelled; a non-200 response aborts the whole fetch in the source. -/
def PageSource : Type := Str → List RawWork × Option Str

/-- State of the accumulation loop of `fetch_openalex_works`. -/
structure FetchState where
  works : List RawWork
  cursor : Str
deriving DecidableEq

/-- Initial loop state: no works, sentinel cursor "*". -/
def initFetchState : FetchState := ⟨[], "*".data⟩

/-- One iteration of the `while True` loop of `fetch_openalex_works`:
extend the accumulator with the page, stop when there is no next cursor,
or when more than 15000 records have been accumulated; otherwise continue
from the next cursor. -/
def fetchStep (src : PageSource) (s : FetchState) : FetchState ⊕ List RawWork :=
  let page := src s.cursor
  let works := s.works ++ page.1
  match page.2 with
  | none => Sum.inr works
  | some c => if 15000 < works.length then Sum.inr works else Sum.inl ⟨works, c⟩

/-- Fuel-indexed unrolling of the fetch loop: `some works` when the loop
returns within `fuel` iterations, `none` when it is still running. -/
def fetchRun (src : PageSource) : Nat → FetchState → Option (List RawWork)
  | 0, _ => none
  | fuel + 1, s =>
    match fetchStep src s with
    | Sum.inr w => some w
    | Sum.inl s2 => fetchRun src fuel s2

/-- The fetch loop never returns on this source, whatever the fuel. -/
def FetchDiverges (src : PageSource) : Prop :=
  ∀ n, fetchRun src n initFetchState = none

/-- The endpoint pieces of the `/ranking` route that the claims refer to:
`works` keeps only raw records with a `publication_year`. -/
def ranking_works (raw : List RawWork) : List NormWork :=
  (raw.filter (fun w => w.publication_year.isSome)).map normalize_work

/-- The `/ranking` response fields `count_works_total`,
`count_works_with_year` and the paper ranking items. -/
def ranking_response (raw : List RawWork) (now : Int) : Nat × Nat × List RatedWork :=
  (raw.length, (ranking_works raw).length,
    compute_rate_ranking (ranking_works raw) TOP_PAPERS now)

/-- Concrete work with 13 resolvable author names, used as C9's witness. -/
def wThirteen : RawWork :=
  { title := none
    publication_year := none
    cited_by_count := none
    type := none
    authorships := List.replicate 13 { id := none, display_name := some ['A'] } }

/-- Concrete non-article publication (type "book-chapter"). -/
def wBookChapter : RawWork :=
  { title := none
    publication_year := some 2020
    cited_by_count := some 3
    type := some "book-chapter".data
    authorships := [{ id := some "https://openalex.org/A9".data, display_name := some "Ann B".data }] }

/-- Two concrete rated works differing only in title, for C4's witness. -/
def ratedTitleB : RatedWork :=
  { title := some "b".data, authors := [], year := 2020, citations := 3, type := none
    citation_rate := 1 }

/-- Companion to `ratedTitleB` with the lexicographically smaller title. -/
def ratedTitleA : RatedWork :=
  { title := some "a".data, authors := [], year := 2020, citations := 3, type := none
    citation_rate := 1 }

/-- Concrete normalized work: year 2025, 6 citations. -/
def normSix : NormWork :=
  { title := none, authors := [], year := some 2025, citations := 6, type := none }

/-- The rated item produced for `normSix` at current year 2025 (age 0). -/
def ratedSix : RatedWork :=
  { title := none, authors := [], year := 2025, citations := 6, type := none
    citation_rate := 6 }

/-- Concrete article co-authored with "Alice" (identifier X1). -/
def wAlice : RawWork :=
  { title := none
    publication_year := some 2020
    cited_by_count := some 1
    type := some "article".data
    authorships := [{ id := some "https://openalex.org/X1".data
                      display_name := some "Alice".data }] }

/-- Concrete article co-authored with "Bob" (identifier X2). -/
def wBob : RawWork :=
  { title := none
    publication_year := some 2021
    cited_by_count := some 1
    type := some "article".data
    authorships := [{ id := some "https://openalex.org/X2".data
                      display_name := some "Bob".data }] }

/-- The aggregate the resolver builds for "Alice" on `wAlice`. -/
def itemAlice : CoauthorItem :=
  { name_key := "alice".data, name := "Alice".data, count := 1
    author_id := some "https://openalex.org/X1".data, merged_ids := 1 }

/-- The aggregate the resolver builds for "Bob" on `wBob`. -/
def itemBob : CoauthorItem :=
  { name_key := "bob".data, name := "Bob".data, count := 1
    author_id := some "https://openalex.org/X2".data, merged_ids := 1 }

/-! ### C1: name-key merge and joint-work counting -/

/-- Concrete qualifying article on which the SAME publication lists two
authorship entries with distinct identifiers X and Y but the identical
display name "John Smith". -/
def wSharedArticle : RawWork :=
  { title := none
    publication_year := some 2021
    cited_by_count := some 0
    type := some "article".data
    authorships := [{ id := some "https://openalex.org/X".data
                      display_name := some "John Smith".data },
                    { id := some "https://openalex.org/Y".data
                      display_name := some "John Smith".data }] }

/-- The single aggregate the code builds on `wSharedArticle`: one name key
"john smith" with `merged_ids = 2` but joint-work count 2, although either
identifier co-authors only the one qualifying article. -/
def itemJohnSmith : CoauthorItem :=
  { name_key := "john smith".data, name := "John Smith".data, count := 2
    author_id := some "https://openalex.org/X".data, merged_ids := 2 }

/-! ### C10: missing display names fall back to "Unknown" -/

/-- Concrete qualifying article with two non-subject identifiers whose
display names are missing (`None`) and empty (`""`) respectively. -/
def wNoNames : RawWork :=
  { title := none
    publication_year := some 2022
    cited_by_count := some 0
    type := some "article".data
    authorships := [{ id := some "https://openalex.org/U1".data, display_name := none },
                    { id := some "https://openalex.org/U2".data, display_name := some [] }] }

/-- The single aggregate built from `wNoNames`: both entries are merged
under the name key "unknown" with display name "Unknown". -/
def itemUnknown : CoauthorItem :=
  { name_key := "unknown".data, name := "Unknown".data, count := 2
    author_id := some "https://openalex.org/U1".data, merged_ids := 2 }

/-! ### C5: canonical identifiers and self-exclusion -/

/-- No identifier recorded anywhere in a `name_ids` table equals the
canonicalized subject identifier. -/
def NoMainIds (main_id : Str) (t : List (Str × List (Str × Nat))) : Prop :=
  ∀ p ∈ t, ∀ q ∈ p.2, q.1 ≠ main_id

/-- Page source that forever reports an empty page plus a next cursor. -/
def emptyPagesSource : PageSource := fun _ => ([], some "c".data)

/-- A placeholder record for the steadily-producing page source. -/
def wBlank : RawWork :=
  { title := none, publication_year := none, cited_by_count := none
    type := none, authorships := [] }

/-- Page source that forever yields one record per page plus a next cursor. -/
def steadySource : PageSource := fun _ => ([wBlank], some "c".data)

theorem isStrictLinear_of_lt_iff [LinearOrder κ] (lt : κ → κ → Bool)
    (hc : ∀ x y, lt x y = true ↔ x < y) : IsStrictLinear lt := by
  refine ⟨?_, ?_, ?_⟩
  · intro x y h
    rw [hc] at h
    rw [Bool.eq_false_iff, Ne, hc]
    exact not_lt.mpr h.le
  · intro x y z h1 h2
    rw [hc] at h1 h2 ⊢
    exact lt_trans h1 h2
  · intro x y h1 h2
    rw [Bool.eq_false_iff, Ne, hc, not_lt] at h1 h2
    exact le_antisymm h2 h1

theorem isStrictLinear_chLt : IsStrictLinear chLt :=
  isStrictLinear_of_lt_iff chLt (fun x y => by simp [chLt])

theorem isStrictLinear_qLt : IsStrictLinear qLt :=
  isStrictLinear_of_lt_iff qLt (fun x y => by simp [qLt])

theorem isStrictLinear_natLt : IsStrictLinear natLt :=
  isStrictLinear_of_lt_iff natLt (fun x y => by simp [natLt])

theorem isStrictLinear_intLt : IsStrictLinear intLt :=
  isStrictLinear_of_lt_iff intLt (fun x y => by simp [intLt])

theorem isStrictLinear_listLt {lt : α → α → Bool} (h : IsStrictLinear lt) :
    IsStrictLinear (listLt lt) := by
  refine ⟨?_, ?_, ?_⟩
  · intro x
    induction x with
    | nil => intro y hy; cases y with
      | nil => simp [listLt] at hy
      | cons b bs => simp [listLt]
    | cons a as ih =>
      intro y hy
      cases y with
      | nil => simp [listLt] at hy
      | cons b bs =>
        simp only [listLt] at hy ⊢
        by_cases hab : lt a b = true
        · rw [h.asymm a b hab]
          simp [hab]
        · simp only [hab, if_false, Bool.false_eq_true] at hy
          by_cases hba : lt b a = true
          · simp [hba] at hy
          · simp only [Bool.not_eq_true] at hab hba
            simp only [hba, Bool.false_eq_true, if_false] at hy
            simp only [hba, hab, if_false, Bool.false_eq_true]
            exact ih bs hy
  · intro x
    induction x with
    | nil =>
      intro y z hy hz
      cases y with
      | nil => simp [listLt] at hy
      | cons b bs =>
        cases z with
        | nil => simp [listLt] at hz
        | cons c cs => simp [listLt]
    | cons a as ih =>
      intro y z hy hz
      cases y with
      | nil => simp [listLt] at hy
      | cons b bs =>
        cases z with
        | nil => simp [listLt] at hz
        | cons c cs =>
          simp only [listLt] at hy hz ⊢
          by_cases hab : lt a b = true
          · by_cases hbc : lt b c = true
            · simp [h.trans a b c hab hbc]
            · simp only [Bool.not_eq_true] at hbc
              simp only [hbc, Bool.false_eq_true, if_false] at hz
              by_cases hcb : lt c b = true
              · simp [hcb] at hz
              · simp only [Bool.not_eq_true] at hcb
                have hbc2 : b = c := h.eq_of b c hbc hcb
                subst hbc2
                simp [hab]
          · simp only [Bool.not_eq_true] at hab
            simp only [hab, Bool.false_eq_true, if_false] at hy
            by_cases hba : lt b a = true
            · simp [hba] at hy
            · simp only [Bool.not_eq_true] at hba
              have hab2 : a = b := h.eq_of a b hab hba
              subst hab2
              simp only [hab, Bool.false_eq_true, if_false] at hy ⊢
              by_cases hac : lt a c = true
              · simp [hac]
              · simp only [Bool.not_eq_true] at hac
                simp only [hac, Bool.false_eq_true, if_false] at hz ⊢
                by_cases hca : lt c a = true
                · simp [hca] at hz
                · simp only [Bool.not_eq_true] at hca
                  simp only [hca, Bool.false_eq_true, if_false] at hz ⊢
                  exact ih bs cs hy hz
  · intro x
    induction x with
    | nil =>
      intro y hy _
      cases y with
      | nil => rfl
      | cons b bs => simp [listLt] at hy
    | cons a as ih =>
      intro y hy hz
      cases y with
      | nil => simp [listLt] at hz
      | cons b bs =>
        simp only [listLt] at hy hz
        by_cases hab : lt a b = true
        · simp [hab] at hy
        · simp only [Bool.not_eq_true] at hab
          simp only [hab, Bool.false_eq_true, if_false] at hy
          by_cases hba : lt b a = true
          · simp [hba] at hz
          · simp only [Bool.not_eq_true] at hba
            have : a = b := h.eq_of a b hab hba
            subst this
            simp only [hab, Bool.false_eq_true, if_false] at hy hz
            rw [ih bs hy hz]

theorem isStrictLinear_lexCombine {ltA : α → α → Bool} {ltB : β → β → Bool}
    (hA : IsStrictLinear ltA) (hB : IsStrictLinear ltB) :
    IsStrictLinear (lexCombine ltA ltB) := by
  refine ⟨?_, ?_, ?_⟩
  · intro x y hxy
    simp only [lexCombine] at hxy ⊢
    by_cases h1 : ltA x.1 y.1 = true
    · rw [hA.asymm _ _ h1]
      simp [h1]
    · simp only [Bool.not_eq_true] at h1
      simp only [h1, Bool.false_eq_true, if_false] at hxy
      by_cases h2 : ltA y.1 x.1 = true
      · simp [h2] at hxy
      · simp only [Bool.not_eq_true] at h2
        simp only [h2, h1, Bool.false_eq_true, if_false] at hxy ⊢
        exact hB.asymm _ _ hxy
  · intro x y z hxy hyz
    simp only [lexCombine] at hxy hyz ⊢
    by_cases h1 : ltA x.1 y.1 = true
    · by_cases h2 : ltA y.1 z.1 = true
      · simp [hA.trans _ _ _ h1 h2]
      · simp only [Bool.not_eq_true] at h2
        simp only [h2, Bool.false_eq_true, if_false] at hyz
        by_cases h3 : ltA z.1 y.1 = true
        · simp [h3] at hyz
        · simp only [Bool.not_eq_true] at h3
          have : y.1 = z.1 := hA.eq_of _ _ h2 h3
          rw [← this]
          simp [h1]
    · simp only [Bool.not_eq_true] at h1
      simp only [h1, Bool.false_eq_true, if_false] at hxy
      by_cases h2 : ltA y.1 x.1 = true
      · simp [h2] at hxy
      · simp only [Bool.not_eq_true] at h2
        have exy : x.1 = y.1 := hA.eq_of _ _ h1 h2
        simp only [h2, Bool.false_eq_true, if_false] at hxy
        by_cases h3 : ltA y.1 z.1 = true
        · rw [exy]
          simp [h3]
        · simp only [Bool.not_eq_true] at h3
          simp only [h3, Bool.false_eq_true, if_false] at hyz
          by_cases h4 : ltA z.1 y.1 = true
          · simp [h4] at hyz
          · simp only [Bool.not_eq_true] at h4
            have eyz : y.1 = z.1 := hA.eq_of _ _ h3 h4
            rw [exy, eyz]
            have hz1 : ltA z.1 z.1 = false := by
              by_cases hc : ltA z.1 z.1 = true
              · have := hA.asymm _ _ hc; rw [this] at hc; exact absurd hc (by simp)
              · simpa using hc
            simp only [h4, Bool.false_eq_true, if_false] at hyz
            simp only [hz1, Bool.false_eq_true, if_false]
            exact hB.trans _ _ _ hxy hyz
  · intro x y hxy hyx
    simp only [lexCombine] at hxy hyx
    by_cases h1 : ltA x.1 y.1 = true
    · simp [h1] at hxy
    · simp only [Bool.not_eq_true] at h1
      simp only [h1, Bool.false_eq_true, if_false] at hxy hyx
      by_cases h2 : ltA y.1 x.1 = true
      · simp [h2] at hyx
      · simp only [Bool.not_eq_true] at h2
        simp only [h2, Bool.false_eq_true, if_false] at hxy hyx
        have e1 : x.1 = y.1 := hA.eq_of _ _ h1 h2
        have e2 : x.2 = y.2 := hB.eq_of _ _ hxy hyx
        exact Prod.ext e1 e2

theorem isStrictLinear_strLt : IsStrictLinear strLt :=
  isStrictLinear_listLt isStrictLinear_chLt

theorem descLe_trans {lt : κ → κ → Bool} (h : IsStrictLinear lt) (k : α → κ) :
    ∀ x y z : α, descLe lt k x y → descLe lt k y z → descLe lt k x z := by
  intro x y z hxy hyz
  simp only [descLe, Bool.not_eq_true'] at hxy hyz ⊢
  by_cases hxz : lt (k x) (k z) = true
  · by_cases hzy : lt (k z) (k y) = true
    · have := h.trans _ _ _ hxz hzy
      rw [this] at hxy
      exact absurd hxy (by simp)
    · simp only [Bool.not_eq_true] at hzy
      have : k y = k z := h.eq_of _ _ hyz hzy
      rw [← this] at hxz
      rw [hxz] at hxy
      exact absurd hxy (by simp)
  · simpa using hxz

theorem descLe_total {lt : κ → κ → Bool} (h : IsStrictLinear lt) (k : α → κ) :
    ∀ x y : α, descLe lt k x y || descLe lt k y x := by
  intro x y
  simp only [descLe, Bool.or_eq_true, Bool.not_eq_true']
  by_cases hxy : lt (k x) (k y) = true
  · right; exact h.asymm _ _ hxy
  · left; simpa using hxy

theorem isStrictLinear_rateKeyLt : IsStrictLinear rateKeyLt :=
  isStrictLinear_lexCombine isStrictLinear_qLt
    (isStrictLinear_lexCombine isStrictLinear_natLt
      (isStrictLinear_lexCombine isStrictLinear_intLt isStrictLinear_strLt))

theorem isStrictLinear_coKeyLt : IsStrictLinear coKeyLt :=
  isStrictLinear_lexCombine isStrictLinear_natLt isStrictLinear_strLt

/-! ### C3: citation-rate formula -/

/-- C3: For every citation count `c`, publication year `y` and current year
`n`, the citation rate equals `c / (1 + max(0, n - y))`; the age term is
floored at zero, so a future-dated publication (`y > n`) gets denominator 1
(rate `c`), and the denominator is always positive, so the division never
divides by zero. -/
theorem citation_rate_spec (c : Nat) (y n : Int) :
    citation_rate c y n = (c : ℚ) / (1 + ((max 0 (n - y) : Int) : ℚ))
    ∧ 1 ≤ 1 + max 0 (n - y)
    ∧ (n < y → citation_rate c y n = (c : ℚ))
    ∧ (0 : ℚ) < 1 + ((max 0 (n - y) : Int) : ℚ) := by
  have h0 : (0 : Int) ≤ max 0 (n - y) := le_max_left _ _
  refine ⟨rfl, by omega, ?_, ?_⟩
  · intro h
    have hm : max 0 (n - y) = 0 := max_eq_left (by omega)
    simp [citation_rate, hm]
  · have : (0 : ℚ) ≤ ((max 0 (n - y) : Int) : ℚ) := by exact_mod_cast h0
    linarith

/-- Witness for C3: a publication dated 2030 with 7 citations, current year
2025, has rate exactly 7. -/
theorem citation_rate_spec_witness : citation_rate 7 2030 2025 = (7 : ℚ) :=
  (citation_rate_spec 7 2030 2025).2.2.1 (by decide)

/-! ### C9: author-list compaction -/

theorem resolvedNames_mem_ne_nil (w : RawWork) : ∀ s ∈ resolvedNames w, s ≠ [] := by
  intro s hs
  simp only [resolvedNames, List.mem_filterMap] at hs
  obtain ⟨a, _, ha⟩ := hs
  cases hd : a.display_name with
  | none => rw [hd] at ha; simp at ha
  | some d =>
    rw [hd] at ha
    by_cases hde : d = []
    · simp [hde] at ha
    · simp only [hde, if_false] at ha
      cases ha
      exact hde

theorem intercalate_head_ne_nil {sep x : Str} {xs : List Str} (hx : x ≠ []) :
    List.intercalate sep (x :: xs) ≠ [] := by
  cases xs with
  | nil => simpa [List.intercalate] using hx
  | cons y ys =>
    simp only [List.intercalate, List.intersperse_cons₂, List.flatten_cons]
    exact List.append_ne_nil_of_left_ne_nil hx _

/-- C9: The compacted author string joins the resolvable display names in
original order; with more than 12 names it keeps exactly the first 12 and
appends a literal ", et al." marker; it is empty exactly when zero
resolvable author names are present (no error). -/
theorem extract_authors_list_spec (w : RawWork) :
    (resolvedNames w = [] → extract_authors_list w MAX_AUTHORS_DISPLAY = [])
    ∧ (resolvedNames w ≠ [] → extract_authors_list w MAX_AUTHORS_DISPLAY ≠ [])
    ∧ ((resolvedNames w).length ≤ MAX_AUTHORS_DISPLAY →
        extract_authors_list w MAX_AUTHORS_DISPLAY =
          List.intercalate ", ".data (resolvedNames w))
    ∧ (MAX_AUTHORS_DISPLAY < (resolvedNames w).length →
        extract_authors_list w MAX_AUTHORS_DISPLAY =
          List.intercalate ", ".data ((resolvedNames w).take MAX_AUTHORS_DISPLAY)
            ++ ", et al.".data) := by
  refine ⟨?_, ?_, ?_, ?_⟩
  · intro h
    simp [extract_authors_list, h]
  · intro h
    cases hr : resolvedNames w with
    | nil => exact absurd hr h
    | cons x xs =>
      have hx : x ≠ [] := resolvedNames_mem_ne_nil w x (by rw [hr]; exact List.mem_cons_self x xs)
      by_cases hlen : (resolvedNames w).length ≤ MAX_AUTHORS_DISPLAY
      · simp only [extract_authors_list, hr, if_neg (List.cons_ne_nil x xs)]
        rw [hr] at hlen
        simp only [hlen, if_pos]
        exact intercalate_head_ne_nil hx
      · simp only [extract_authors_list, hr, if_neg (List.cons_ne_nil x xs)]
        rw [hr] at hlen
        simp only [hlen, if_neg, if_false]
        exact List.append_ne_nil_of_right_ne_nil _ (by decide)
  · intro h
    by_cases hn : resolvedNames w = []
    · simp [extract_authors_list, hn, List.intercalate]
    · simp [extract_authors_list, hn, h]
  · intro h
    have hn : resolvedNames w ≠ [] := by
      intro he
      rw [he] at h
      simp [MAX_AUTHORS_DISPLAY] at h
    have hnle : ¬ (resolvedNames w).length ≤ MAX_AUTHORS_DISPLAY := by omega
    simp [extract_authors_list, hn, hnle]

/-- Witness for C9: with 13 names, the compacted string is the join of the
first 12 followed by the ", et al." marker. -/
theorem extract_authors_list_spec_witness :
    extract_authors_list wThirteen MAX_AUTHORS_DISPLAY =
      List.intercalate ", ".data ((resolvedNames wThirteen).take MAX_AUTHORS_DISPLAY)
        ++ ", et al.".data :=
  (extract_authors_list_spec wThirteen).2.2.2 (by decide)

/-! ### C6: articles-only scope filter -/

/-- C6: Only publications whose type tag equals "article" after
case-folding and trimming contribute to the coauthor ranking: the whole
result is invariant under restricting the input to qualifying articles,
the returned second component is exactly the number of qualifying
articles, and appending a non-article work changes nothing. -/
theorem coauthor_ranking_articles_only (raw : List RawWork) (main : Str) (top_n : Nat) :
    compute_coauthor_ranking_articles_only_merge_by_name raw main top_n =
      compute_coauthor_ranking_articles_only_merge_by_name
        (raw.filter is_published_article) main top_n
    ∧ (compute_coauthor_ranking_articles_only_merge_by_name raw main top_n).2 =
        (raw.filter is_published_article).length
    ∧ ∀ w, is_published_article w = false →
        compute_coauthor_ranking_articles_only_merge_by_name (raw ++ [w]) main top_n =
          compute_coauthor_ranking_articles_only_merge_by_name raw main top_n := by
  have hff : (raw.filter is_published_article).filter is_published_article =
      raw.filter is_published_article := by
    rw [List.filter_filter]
    simp
  refine ⟨?_, rfl, ?_⟩
  · simp only [compute_coauthor_ranking_articles_only_merge_by_name, coauthorItemsOf, hff]
  · intro w hw
    simp only [compute_coauthor_ranking_articles_only_merge_by_name, coauthorItemsOf,
      List.filter_append, List.filter_cons, hw, Bool.false_eq_true, if_false,
      List.filter_nil, List.append_nil]

/-- Witness for C6: appending a book chapter to an empty input leaves the
coauthor ranking unchanged. -/
theorem coauthor_ranking_articles_only_witness :
    compute_coauthor_ranking_articles_only_merge_by_name ([] ++ [wBookChapter]) "A1".data 30 =
      compute_coauthor_ranking_articles_only_merge_by_name [] "A1".data 30 :=
  (coauthor_ranking_articles_only [] "A1".data 30).2.2 wBookChapter (by decide)

/-! ### C4: paper ranking order -/

/-- C4: The paper ranking is stably ordered descending on the key
`(citation_rate, citations, year, title)`: consecutive-or-later entries
never have a strictly larger key, and for a pair ordered by the ranking
relation whose rate, citation count and year agree, the earlier entry's
title is never lexicographically smaller — the greater title sorts first,
making the ordering total and deterministic. -/
theorem compute_rate_ranking_sorted (works : List NormWork) (top_n : Nat) (now : Int) :
    (compute_rate_ranking works top_n now).Pairwise (fun a b => rateLe a b = true)
    ∧ (∀ a b : RatedWork, rateLe a b = true →
        a.citation_rate = b.citation_rate → a.citations = b.citations → a.year = b.year →
        strLt (a.title.getD []) (b.title.getD []) = false) := by
  constructor
  · simp only [compute_rate_ranking]
    exact List.Pairwise.sublist (List.take_sublist _ _)
      (List.sorted_mergeSort
        (descLe_trans isStrictLinear_rateKeyLt rateKey)
        (descLe_total isStrictLinear_rateKeyLt rateKey) _)
  · intro a b hle hr hc hy
    simp only [rateLe, descLe, rateKeyLt, lexCombine, rateKey, Bool.not_eq_true'] at hle
    rw [hr, hc, hy] at hle
    simpa [qLt, natLt, intLt] using hle

/-- Witness for C4: with equal rate, citations and year, the entry with the
greater title precedes, so its title is not lexicographically smaller. -/
theorem compute_rate_ranking_sorted_witness :
    strLt (ratedTitleB.title.getD []) (ratedTitleA.title.getD []) = false :=
  (compute_rate_ranking_sorted [] 0 0).2 ratedTitleB ratedTitleA (by decide) rfl rfl rfl

/-! ### C8: ranking length bound, non-negative rates, year filter -/

theorem citation_rate_nonneg (c : Nat) (y n : Int) : 0 ≤ citation_rate c y n := by
  unfold citation_rate
  apply div_nonneg
  · exact_mod_cast Nat.zero_le c
  · have h0 : (0 : Int) ≤ max 0 (n - y) := le_max_left _ _
    have : (0 : ℚ) ≤ ((max 0 (n - y) : Int) : ℚ) := by exact_mod_cast h0
    linarith

theorem length_filterMap_rateItem (works : List NormWork) (now : Int) :
    (works.filterMap (rateItem now)).length =
      works.countP (fun w => w.year.isSome) := by
  induction works with
  | nil => rfl
  | cons w ws ih =>
    cases hw : w.year with
    | none => simp [List.filterMap_cons, List.countP_cons, rateItem, hw, ih]
    | some y => simp [List.filterMap_cons, List.countP_cons, rateItem, hw, ih]

theorem countP_filter_self (l : List α) (p : α → Bool) :
    (l.filter p).countP p = l.countP p := by
  rw [List.countP_eq_length_filter, List.countP_eq_length_filter, List.filter_filter]
  simp

/-- C8: The paper ranking has at most `min top_n (count of works with a
year)` entries and every returned citation rate is non-negative; in the
ranking endpoint, works without a year are excluded from the paper ranking
(its length is bounded by the with-year count) while the returned total
still counts every fetched record. -/
theorem compute_rate_ranking_bounds (works : List NormWork) (top_n : Nat) (now : Int)
    (raw : List RawWork) :
    (compute_rate_ranking works top_n now).length ≤
      min top_n (works.countP (fun w => w.year.isSome))
    ∧ (∀ r ∈ compute_rate_ranking works top_n now, 0 ≤ r.citation_rate)
    ∧ (ranking_response raw now).1 = raw.length
    ∧ (ranking_response raw now).2.1 = raw.countP (fun w => w.publication_year.isSome)
    ∧ (ranking_response raw now).2.2.length ≤
        min TOP_PAPERS (raw.countP (fun w => w.publication_year.isSome)) := by
  have hlen : ∀ (ws : List NormWork) (n : Nat),
      (compute_rate_ranking ws n now).length ≤
        min n (ws.countP (fun w => w.year.isSome)) := by
    intro ws n
    simp only [compute_rate_ranking, List.length_take, List.length_mergeSort]
    rw [length_filterMap_rateItem]
  have hcount : ∀ raw2 : List RawWork,
      (ranking_works raw2).countP (fun w => w.year.isSome) =
        raw2.countP (fun w => w.publication_year.isSome) := by
    intro raw2
    simp only [ranking_works, List.countP_map]
    have : ((fun w : NormWork => w.year.isSome) ∘ normalize_work) =
        fun w : RawWork => w.publication_year.isSome := rfl
    rw [this]
    exact countP_filter_self raw2 _
  refine ⟨hlen works top_n, ?_, rfl, ?_, ?_⟩
  · intro r hr
    simp only [compute_rate_ranking] at hr
    have hr2 := List.mem_mergeSort.mp (List.mem_of_mem_take hr)
    obtain ⟨w, _, hw⟩ := List.mem_filterMap.mp hr2
    cases hy : w.year with
    | none => rw [rateItem, hy] at hw; cases hw
    | some y =>
      rw [rateItem, hy] at hw
      cases hw
      exact citation_rate_nonneg w.citations y now
  · simp only [ranking_response, ranking_works, List.length_map]
    exact (List.countP_eq_length_filter _ _).symm
  · simp only [ranking_response]
    calc (compute_rate_ranking (ranking_works raw) TOP_PAPERS now).length
        ≤ min TOP_PAPERS ((ranking_works raw).countP (fun w => w.year.isSome)) :=
          hlen (ranking_works raw) TOP_PAPERS
      _ = min TOP_PAPERS (raw.countP (fun w => w.publication_year.isSome)) := by
          rw [hcount raw]

/-- Witness for C8: the single returned item of a concrete ranking has a
non-negative citation rate. -/
theorem compute_rate_ranking_bounds_witness : 0 ≤ ratedSix.citation_rate :=
  (compute_rate_ranking_bounds [normSix] 5 2025 []).2.1 ratedSix (by
    have h1 : List.filterMap (rateItem 2025) [normSix] = [ratedSix] := by
      simp only [List.filterMap_cons, List.filterMap_nil, rateItem, normSix, ratedSix]
      norm_num [citation_rate]
    simp only [compute_rate_ranking, h1, List.mergeSort_singleton]
    simp)

/-! ### C2: coauthor ranking order -/

theorem mergeSort_pair (le : α → α → Bool) (a b : α) :
    List.mergeSort [a, b] le = if le a b then [a, b] else [b, a] := by
  rw [List.mergeSort]
  simp only [List.splitInTwo_fst, List.splitInTwo_snd]
  norm_num
  by_cases h : le a b = true
  · simp [List.merge, h]
  · simp [List.merge, h]

/-- Counterexample to C2 as stated: with equal joint-work counts 1 and 1,
the ranking lists "Bob" before "Alice" — the display-name tie-break is
descending (lexicographically greater first), not ascending. -/
theorem coauthor_tiebreak_descending_cex :
    ((compute_coauthor_ranking_articles_only_merge_by_name [wAlice, wBob] "A1".data 30).1.map
        (fun i => i.name) = ["Bob".data, "Alice".data])
    ∧ ((compute_coauthor_ranking_articles_only_merge_by_name [wAlice, wBob] "A1".data 30).1.map
        (fun i => i.count) = [1, 1]) := by
  have hitems : coauthorItemsOf [wAlice, wBob] "A1".data = [itemAlice, itemBob] := by decide
  have hle : coLe itemAlice itemBob = false := by decide
  constructor
  · simp only [compute_coauthor_ranking_articles_only_merge_by_name, hitems,
      mergeSort_pair, hle, Bool.false_eq_true, if_false]
    decide
  · simp only [compute_coauthor_ranking_articles_only_merge_by_name, hitems,
      mergeSort_pair, hle, Bool.false_eq_true, if_false]
    decide

/-- C2 (amended): The coauthor ranking is ordered by descending joint-work
count with ties between equal counts broken by descending (lexicographically
greater first) display name, and is truncated to at most `top_n` entries. -/
theorem coauthor_ranking_order (raw : List RawWork) (main : Str) (top_n : Nat) :
    ((compute_coauthor_ranking_articles_only_merge_by_name raw main top_n).1.Pairwise
        (fun a b => coLe a b = true))
    ∧ (compute_coauthor_ranking_articles_only_merge_by_name raw main top_n).1.length ≤ top_n
    ∧ (∀ a b : CoauthorItem, coLe a b = true → a.count = b.count →
        strLt a.name b.name = false) := by
  refine ⟨?_, ?_, ?_⟩
  · simp only [compute_coauthor_ranking_articles_only_merge_by_name]
    exact List.Pairwise.sublist (List.take_sublist _ _)
      (List.sorted_mergeSort
        (descLe_trans isStrictLinear_coKeyLt coKey)
        (descLe_total isStrictLinear_coKeyLt coKey) _)
  · simp only [compute_coauthor_ranking_articles_only_merge_by_name]
    exact List.length_take_le _ _
  · intro a b hle hc
    simp only [coLe, descLe, coKeyLt, lexCombine, coKey, Bool.not_eq_true'] at hle
    rw [hc] at hle
    simpa [natLt] using hle

/-- Witness for C2 (amended): the pair ("Bob", count 1) may precede
("Alice", count 1) in the descending order, and indeed "Bob"'s name is not
lexicographically smaller than "Alice"'s. -/
theorem coauthor_ranking_order_witness : strLt itemBob.name itemAlice.name = false :=
  (coauthor_ranking_order [] [] 0).2.2 itemBob itemAlice (by decide) rfl

/-- C1 failing-input evaluation: on a single qualifying article listing
both identifiers under the same normalized name, the code returns exactly
one aggregate with `merged_ids = 2` as claimed, but its joint-work count is
2 — the per-entry sum — although the union count of qualifying articles
either identifier co-authored is 1. -/
theorem coauthor_shared_article_double_count :
    (compute_coauthor_ranking_articles_only_merge_by_name [wSharedArticle] "A1".data 30).2 = 1
    ∧ (compute_coauthor_ranking_articles_only_merge_by_name [wSharedArticle] "A1".data 30).1 =
        [itemJohnSmith]
    ∧ itemJohnSmith.count = 2
    ∧ itemJohnSmith.merged_ids = 2 := by
  have hitems : coauthorItemsOf [wSharedArticle] "A1".data = [itemJohnSmith] := by decide
  refine ⟨by decide, ?_, rfl, rfl⟩
  simp only [compute_coauthor_ranking_articles_only_merge_by_name, hitems,
    List.mergeSort_singleton]
  decide

/-- C10: An authorship with a usable non-subject identifier but a missing
or empty display name is not skipped: its display name falls back to
"Unknown", its name key is the non-empty "unknown" (so the empty-key skip
branch is never taken), and the entry updates the tables under that key;
concretely, two such entries with distinct identifiers produce the single
aggregate ("unknown", "Unknown", count 2, merged_ids 2). -/
theorem coauthor_unknown_fallback (st : AggState) (main_id aid : Str) (a : Authorship)
    (h1 : a.id = some aid) (h2 : ¬(aid = [] ∨ aid = main_id))
    (h3 : a.display_name = none ∨ a.display_name = some []) :
    dispOf a = unknownName
    ∧ normalize_person_name (dispOf a) = "unknown".data
    ∧ "unknown".data ≠ []
    ∧ processEntry main_id st a =
        { name_counts := bumpCount "unknown".data st.name_counts
          name_display := setLongest "unknown".data unknownName st.name_display
          name_ids := bumpIds "unknown".data aid st.name_ids }
    ∧ (compute_coauthor_ranking_articles_only_merge_by_name [wNoNames] "A1".data 30).1 =
        [itemUnknown] := by
  have hd : dispOf a = unknownName := by
    cases h3 with
    | inl h => simp [dispOf, h]
    | inr h => simp [dispOf, h]
  have hn : normalize_person_name unknownName = "unknown".data := by decide
  refine ⟨hd, by rw [hd]; exact hn, by decide, ?_, ?_⟩
  · simp only [processEntry, h1, h2, if_false, hd, hn]
    exact if_neg (by decide)
  · have hitems : coauthorItemsOf [wNoNames] "A1".data = [itemUnknown] := by decide
    simp only [compute_coauthor_ranking_articles_only_merge_by_name, hitems,
      List.mergeSort_singleton]
    decide

/-- Witness for C10: a concrete authorship with identifier U3 and a missing
display name is folded into the "unknown" name key. -/
theorem coauthor_unknown_fallback_witness :
    normalize_person_name (dispOf { id := some "https://openalex.org/U3".data
                                    display_name := none }) = "unknown".data :=
  (coauthor_unknown_fallback initAggState "A1".data "https://openalex.org/U3".data
    { id := some "https://openalex.org/U3".data, display_name := none }
    rfl (by decide) (Or.inl rfl)).2.1

theorem bumpCount_key_prop {κ : Type} [DecidableEq κ] (P : κ → Prop) {k : κ}
    {m : List (κ × Nat)} (hk : P k) (hm : ∀ q ∈ m, P q.1) :
    ∀ q ∈ bumpCount k m, P q.1 := by
  induction m with
  | nil =>
    intro q hq
    simp only [bumpCount, List.mem_singleton] at hq
    rw [hq]
    exact hk
  | cons p rest ih =>
    intro q hq
    rw [bumpCount] at hq
    by_cases he : p.1 = k
    · simp only [he, if_pos] at hq
      rcases List.mem_cons.mp hq with h | h
      · rw [h]
        exact hk
      · exact hm q (List.mem_cons_of_mem p h)
    · simp only [he, if_false] at hq
      rcases List.mem_cons.mp hq with h | h
      · rw [h]
        exact hm p (List.mem_cons_self p rest)
      · exact ih (fun q2 hq2 => hm q2 (List.mem_cons_of_mem p hq2)) q h

theorem bumpIds_noMain {main_id k aid : Str} {t : List (Str × List (Str × Nat))}
    (ht : NoMainIds main_id t) (ha : aid ≠ main_id) :
    NoMainIds main_id (bumpIds k aid t) := by
  induction t with
  | nil =>
    intro p hp q hq
    simp only [bumpIds, List.mem_singleton] at hp
    rw [hp] at hq
    simp only [List.mem_singleton] at hq
    rw [hq]
    exact ha
  | cons e rest ih =>
    intro p hp q hq
    rw [bumpIds] at hp
    by_cases he : e.1 = k
    · simp only [he, if_pos] at hp
      rcases List.mem_cons.mp hp with h | h
      · rw [h] at hq
        exact bumpCount_key_prop (fun x => x ≠ main_id) ha
          (fun q2 hq2 => ht e (List.mem_cons_self e rest) q2 hq2) q hq
      · exact ht p (List.mem_cons_of_mem e h) q hq
    · simp only [he, if_false] at hp
      rcases List.mem_cons.mp hp with h | h
      · rw [h] at hq
        exact ht e (List.mem_cons_self e rest) q hq
      · exact ih (fun p2 hp2 q2 hq2 => ht p2 (List.mem_cons_of_mem e hp2) q2 hq2) p h q hq

theorem processEntry_noMain {main_id : Str} {st : AggState} (a : Authorship)
    (h : NoMainIds main_id st.name_ids) :
    NoMainIds main_id (processEntry main_id st a).name_ids := by
  rw [processEntry]
  cases a.id with
  | none => exact h
  | some aid =>
    by_cases hc : aid = [] ∨ aid = main_id
    · simp only [hc, if_pos]
      exact h
    · simp only [hc, if_false]
      by_cases hk : normalize_person_name (dispOf a) = []
      · simp only [hk, if_pos]
        exact h
      · simp only [hk, if_false]
        exact bumpIds_noMain h (fun he => hc (Or.inr he))

theorem foldl_preserves {σ β : Type} (P : σ → Prop) (f : σ → β → σ)
    (hf : ∀ s b, P s → P (f s b)) :
    ∀ (l : List β) (s : σ), P s → P (List.foldl f s l) := by
  intro l
  induction l with
  | nil => intro s hs; exact hs
  | cons b rest ih => intro s hs; exact ih (f s b) (hf s b hs)

theorem mostCommonGo_mem (l : List (Str × Nat)) :
    ∀ (a : Str) (n : Nat), mostCommonGo a n l = a ∨ ∃ m, (mostCommonGo a n l, m) ∈ l := by
  induction l with
  | nil => intro a n; exact Or.inl rfl
  | cons p rest ih =>
    intro a n
    rw [mostCommonGo]
    by_cases hlt : n < p.2
    · simp only [hlt, if_pos]
      rcases ih p.1 p.2 with h | ⟨m, hm⟩
      · right
        refine ⟨p.2, ?_⟩
        rw [h]
        exact List.mem_cons_self p rest
      · exact Or.inr ⟨m, List.mem_cons_of_mem p hm⟩
    · simp only [hlt, if_false]
      rcases ih a n with h | ⟨m, hm⟩
      · exact Or.inl h
      · exact Or.inr ⟨m, List.mem_cons_of_mem p hm⟩

theorem mostCommon_mem {l : List (Str × Nat)} {x : Str} (h : mostCommon l = some x) :
    ∃ m, (x, m) ∈ l := by
  cases l with
  | nil => cases h
  | cons p rest =>
    rw [mostCommon] at h
    have hx : mostCommonGo p.1 p.2 rest = x := by
      cases h
      rfl
    rcases mostCommonGo_mem rest p.1 p.2 with h2 | ⟨m, hm⟩
    · refine ⟨p.2, ?_⟩
      rw [← hx, h2]
      exact List.mem_cons_self p rest
    · rw [hx] at hm
      exact ⟨m, List.mem_cons_of_mem p hm⟩

theorem lookupA_mem {κ δ : Type} [DecidableEq κ] {k : κ} {v : δ} :
    ∀ {t : List (κ × δ)}, lookupA k t = some v → (k, v) ∈ t := by
  intro t
  induction t with
  | nil => intro h; cases h
  | cons p rest ih =>
    intro h
    rw [lookupA] at h
    by_cases he : p.1 = k
    · simp only [he, if_pos] at h
      cases h
      rw [← he]
      exact List.mem_cons_self _ rest
    · simp only [he, if_false] at h
      exact List.mem_cons_of_mem p (ih h)

/-- C5: Both accepted subject-identity input forms (bare suffix and
fully-qualified URL) canonicalize to the same identifier, and no aggregate
of the subject's own coauthor ranking carries the subject's canonical
identifier as its resolved identifier. -/
theorem canonical_id_self_exclusion (s : Str) (hs : "http".data.isPrefixOf s = false)
    (raw : List RawWork) (main : Str) (top_n : Nat) :
    _canonical_author_id ("https://openalex.org/".data ++ s) = _canonical_author_id s
    ∧ ∀ i ∈ (compute_coauthor_ranking_articles_only_merge_by_name raw main top_n).1,
        i.author_id ≠ some (_canonical_author_id main) := by
  constructor
  · have hpre : "http".data.isPrefixOf ("https://openalex.org/".data ++ s) = true := rfl
    simp [_canonical_author_id, hpre, hs]
  · intro i hi hcon
    simp only [compute_coauthor_ranking_articles_only_merge_by_name] at hi
    have hi2 : i ∈ coauthorItemsOf raw main :=
      List.mem_mergeSort.mp (List.mem_of_mem_take hi)
    simp only [coauthorItemsOf, mkItems, List.mem_map] at hi2
    obtain ⟨kc, _, hkc⟩ := hi2
    set st := (raw.filter is_published_article).foldl
      (fun s2 w => w.authorships.foldl (processEntry (_canonical_author_id main)) s2)
      initAggState with hst
    have hinv : NoMainIds (_canonical_author_id main) st.name_ids := by
      rw [hst]
      refine foldl_preserves
        (fun s2 : AggState => NoMainIds (_canonical_author_id main) s2.name_ids) _ ?_ _ _ ?_
      · intro s2 w hP
        exact foldl_preserves
          (fun s3 : AggState => NoMainIds (_canonical_author_id main) s3.name_ids)
          _ (fun s3 a hP3 => processEntry_noMain a hP3) _ s2 hP
      · intro p hp
        cases hp
    have hid : i.author_id = mostCommon ((lookupA kc.1 st.name_ids).getD []) := by
      rw [← hkc]
    rw [hid] at hcon
    obtain ⟨m, hm⟩ := mostCommon_mem hcon
    cases hl : lookupA kc.1 st.name_ids with
    | none =>
      rw [hl] at hm
      cases hm
    | some ids =>
      rw [hl] at hm
      exact hinv (kc.1, ids) (lookupA_mem hl) _ hm rfl

/-- Witness for C5: the bare identifier "A1" and its fully-qualified form
canonicalize identically. -/
theorem canonical_id_self_exclusion_witness :
    _canonical_author_id ("https://openalex.org/".data ++ "A1".data) =
      _canonical_author_id "A1".data :=
  (canonical_id_self_exclusion "A1".data (by decide) [] [] 0).1

/-! ### C7: fetch accumulation cap -/

theorem fetchRun_cap_aux (src : PageSource) (B : Nat)
    (h1 : ∀ c, (src c).1 ≠ []) (h2 : ∀ c, (src c).1.length ≤ B) :
    ∀ (fuel : Nat) (s : FetchState), s.works.length ≤ 15000 →
      15001 < s.works.length + fuel →
      ∃ w, fetchRun src fuel s = some w ∧ w.length ≤ 15000 + B := by
  intro fuel
  induction fuel with
  | zero =>
    intro s hle hgt
    omega
  | succ n ih =>
    intro s hle hgt
    have hpagelen : 1 ≤ (src s.cursor).1.length := by
      have := h1 s.cursor
      cases hp : (src s.cursor).1 with
      | nil => exact absurd hp this
      | cons x xs => simp [hp]
    have hB := h2 s.cursor
    rw [fetchRun]
    rw [fetchStep]
    cases hc : (src s.cursor).2 with
    | none =>
      refine ⟨s.works ++ (src s.cursor).1, rfl, ?_⟩
      rw [List.length_append]
      omega
    | some c =>
      by_cases hbig : 15000 < (s.works ++ (src s.cursor).1).length
      · simp only [hbig, if_pos]
        refine ⟨s.works ++ (src s.cursor).1, rfl, ?_⟩
        rw [List.length_append]
        omega
      · simp only [hbig, if_false]
        have hlen2 : (s.works ++ (src s.cursor).1).length ≤ 15000 := by omega
        refine ih ⟨s.works ++ (src s.cursor).1, c⟩ hlen2 ?_
        simp only [List.length_append]
        omega

/-- C7 (amended): For every page source each of whose pages carries at
least one and at most `B` records, the fetch loop terminates within 15002
page requests; it stops accumulating once the record count exceeds 15000
even when the source still reports a next cursor, and it returns the
accumulated records normally (at most `15000 + B` of them). -/
theorem fetch_cap_terminates (src : PageSource) (B : Nat)
    (h1 : ∀ c, (src c).1 ≠ []) (h2 : ∀ c, (src c).1.length ≤ B) :
    ∃ w, fetchRun src 15002 initFetchState = some w ∧ w.length ≤ 15000 + B :=
  fetchRun_cap_aux src B h1 h2 15002 initFetchState (by simp [initFetchState]) (by
    simp [initFetchState])

theorem fetchRun_emptyPages_aux :
    ∀ (n : Nat) (s : FetchState), s.works = [] → fetchRun emptyPagesSource n s = none := by
  intro n
  induction n with
  | zero => intro s _; rfl
  | succ m ih =>
    intro s hw
    have hstep : fetchStep emptyPagesSource s = Sum.inl ⟨[], "c".data⟩ := by
      rw [fetchStep]
      simp [emptyPagesSource, hw]
    rw [fetchRun, hstep]
    exact ih ⟨[], "c".data⟩ rfl

/-- Counterexample to C7 as stated: on the concrete source that forever
returns empty pages with a next cursor, the fetch loop never terminates —
the cap check `len(works) > 15000` is never reached with a true value. -/
theorem fetch_cap_cex : FetchDiverges emptyPagesSource :=
  fun n => fetchRun_emptyPages_aux n initFetchState rfl

/-- Witness for C7 (amended): the unlimited one-record-per-page source
makes the fetcher stop with at most 15001 accumulated records. -/
theorem fetch_cap_terminates_witness :
    ∃ w, fetchRun steadySource 15002 initFetchState = some w ∧ w.length ≤ 15000 + 1 :=
  fetch_cap_terminates steadySource 1
    (fun _ => List.cons_ne_nil wBlank [])
    (fun _ => Nat.le_refl 1)
